import Mathlib

/-!
Verification development for the tornado-tcp-app-example repository.

The Python sources under `base/` and `app/` are shallowly embedded:
bytes become `List Nat` (each entry a byte value `< 256`), Python `str`
values are represented by their UTF-8 byte sequences (`List Nat`),
Python dicts become association lists in insertion order (a Python dict
never holds two equal keys), and every Python exception that the
embedded code can raise is a constructor of `PyError`.  Fallible
operations return `Except PyError α`.
-/

/-- Exceptions raised by the embedded code.  The first group mirrors
`base/exceptions.py`; the second group mirrors the Python builtins the
code can raise (`OverflowError` from `int.to_bytes`, `ValueError` from
`bytes(...)` on an out-of-range element, `TypeError` from `reduce` on an
empty sequence, `IndexError` from indexing or from a `str.format` call
with too few arguments, `UnicodeDecodeError` from `bytes.decode`,
`RuntimeError` from advancing a dict iterator after the dict changed
size).  `wouldBlock` stands for a `stream.read_bytes` suspension that is
still waiting for bytes. -/
inductive PyError where
  | invalidMessage
  | decodeError
  | encodeError
  | sourceError
  | listenerClosed
  | overflowError
  | valueError
  | typeError
  | indexError
  | unicodeDecodeError
  | runtimeError
  | wouldBlock
deriving DecidableEq, Repr

/-- Python `v.to_bytes(len, 'big')`: big-endian bytes, raising
`OverflowError` when the value does not fit. -/
def natToBytesBE : Nat → Nat → List Nat
  | 0, _ => []
  | k + 1, v => natToBytesBE k (v / 256) ++ [v % 256]

/-- Python `v.to_bytes(len, 'big')` with the `OverflowError` made explicit. -/
def pyToBytes (k v : Nat) : Except PyError (List Nat) :=
  if v < 256 ^ k then .ok (natToBytesBE k v) else .error .overflowError

/-- Python `int.from_bytes(bytes, 'big')`. -/
def fromBytesBE (l : List Nat) : Nat :=
  l.foldl (fun a b => a * 256 + b) 0

/-- Python `bytes(list)`: fails with `ValueError` when an element is not a
byte value. -/
def pyBytes (l : List Nat) : Except PyError (List Nat) :=
  if l.all (fun b => b < 256) then .ok l else .error .valueError

/-- Python `data[i]` on bytes: `IndexError` out of range. -/
def pyIndex (l : List Nat) (i : Nat) : Except PyError Nat :=
  match l.get? i with
  | some b => .ok b
  | none => .error .indexError

/-- Python `data[-1]` on bytes: `IndexError` when empty. -/
def pyLast (l : List Nat) : Except PyError Nat :=
  match l.getLast? with
  | some b => .ok b
  | none => .error .indexError

/-- Helper check sum function `xor_checksum` of `base/message.py`:
`reduce(lambda x, y: x ^ y, bytes_data)`.  `reduce` without an initial
value raises `TypeError` on an empty sequence. -/
def xor_checksum (l : List Nat) : Except PyError Nat :=
  match l with
  | [] => .error .typeError
  | h :: t => .ok (t.foldl Nat.xor h)

/-- Helper `trim_bytes` of `base/message.py`: `data = bytes_data[:num]`,
then left-pad with `bytes(num - len(data))` when too short. -/
def trim_bytes (bytes_data : List Nat) (num : Nat) : List Nat :=
  if (bytes_data.take num).length < num then
    List.replicate (num - (bytes_data.take num).length) 0 ++ bytes_data.take num
  else bytes_data.take num

/-- Whether a continuation byte of a UTF-8 sequence is in `0x80..0xBF`. -/
def utf8Cont (b : Nat) : Bool :=
  0x80 ≤ b && b ≤ 0xBF

/-- State machine of the UTF-8 validator: `pending` continuation bytes
are still expected, the next one within `[lo, hi]` and later ones within
`[0x80, 0xBF]`.  Lead-byte dispatch follows the ranges Python
`bytes.decode()` accepts (no overlong forms, no surrogates, nothing
above `U+10FFFF`). -/
def utf8Go : Nat → Nat → Nat → List Nat → Bool
  | 0, _, _, [] => true
  | _ + 1, _, _, [] => false
  | 0, _, _, b :: rest =>
    if b ≤ 0x7F then utf8Go 0 0 0 rest
    else if 0xC2 ≤ b && b ≤ 0xDF then utf8Go 1 0x80 0xBF rest
    else if b = 0xE0 then utf8Go 2 0xA0 0xBF rest
    else if (0xE1 ≤ b && b ≤ 0xEC) || b = 0xEE || b = 0xEF then utf8Go 2 0x80 0xBF rest
    else if b = 0xED then utf8Go 2 0x80 0x9F rest
    else if b = 0xF0 then utf8Go 3 0x90 0xBF rest
    else if 0xF1 ≤ b && b ≤ 0xF3 then utf8Go 3 0x80 0xBF rest
    else if b = 0xF4 then utf8Go 3 0x80 0x8F rest
    else false
  | k + 1, lo, hi, b :: rest =>
    if lo ≤ b && b ≤ hi then utf8Go k 0x80 0xBF rest else false

/-- Validity of a byte sequence as UTF-8, as checked by Python
`bytes.decode()`. -/
def utf8Valid (l : List Nat) : Bool :=
  utf8Go 0 0 0 l

/-- Python `bytes.decode()`: a Python `str` is represented by its UTF-8
bytes, so a successful decode returns the bytes themselves and an
invalid sequence raises `UnicodeDecodeError`. -/
def pyDecodeUtf8 (l : List Nat) : Except PyError (List Nat) :=
  if utf8Valid l then .ok l else .error .unicodeDecodeError

/-- Lexicographic strict order on byte sequences; on UTF-8 encodings it
agrees with Python `<` on the corresponding strings. -/
def lexLt : List Nat → List Nat → Bool
  | [], [] => false
  | [], _ :: _ => true
  | _ :: _, [] => false
  | a :: as, b :: bs => if a < b then true else if a = b then lexLt as bs else false

/-- Lexicographic order `≤` on byte sequences, matching Python string
comparison on UTF-8 encodings. -/
def lexLe : List Nat → List Nat → Bool
  | [], _ => true
  | _ :: _, [] => false
  | a :: as, b :: bs => if a < b then true else if a = b then lexLe as bs else false

/-- Python `result[key] = value` on a dict represented as an association
list in insertion order: an existing key is overwritten in place, a new
key is appended. -/
def dictInsert (k : List Nat) (v : Nat) : List (List Nat × Nat) → List (List Nat × Nat)
  | [] => [(k, v)]
  | (k', v') :: rest => if k' = k then (k, v) :: rest else (k', v') :: dictInsert k v rest

/-- State of a `SourceMessage` instance (`base/message.py`): header,
`num`, `source_id` (UTF-8 bytes of the identifier), `status`, and the
optional `data` dict as an association list in insertion order.  The
`date_received` timestamp is not modeled. -/
structure SourceMessage where
  header : Nat
  num : Nat
  source_id : List Nat
  status : Nat
  data : Option (List (List Nat × Nat))
deriving DecidableEq, Repr

/-- State of a `ServerMessage` instance (`base/message.py`). -/
structure ServerMessage where
  header : Nat
  num : Nat
deriving DecidableEq, Repr

/-- Constructor `SourceMessage.__init__`: `if not header` treats both the
`None` default and an explicit `0` as unset and substitutes
`DEFAULT_HEADER = 0x01`; a header outside `HEADERS = (0x01,)` or a
status outside `STATUS = {1, 2, 3}` raises `InvalidMessageException`. -/
def mkSourceMessage (num : Nat) (source_id : List Nat) (status : Nat) (header : Nat)
    (data : Option (List (List Nat × Nat))) : Except PyError SourceMessage :=
  let h := if header = 0 then 0x01 else header
  if h = 0x01 then
    if status = 1 ∨ status = 2 ∨ status = 3 then
      .ok ⟨h, num, source_id, status, data⟩
    else .error .invalidMessage
  else .error .invalidMessage

/-- Constructor `ServerMessage.__init__`: `if not header` substitutes
`DEFAULT_HEADER = 0x11`; a header outside `HEADERS = (0x11, 0x12)`
raises `InvalidMessageException`, and `HEADER_ERROR = 0x12` with a
nonzero `num` also raises `InvalidMessageException`. -/
def mkServerMessage (num : Nat) (header : Nat) : Except PyError ServerMessage :=
  let h := if header = 0 then 0x11 else header
  if h = 0x11 ∨ h = 0x12 then
    if h = 0x12 ∧ num ≠ 0 then .error .invalidMessage
    else .ok ⟨h, num⟩
  else .error .invalidMessage

/-- Loop body of `SourceMessage._encode_data`: the `try` block appends
`trim_bytes(key.encode(), 8)` and `value.to_bytes(4, 'big')`, converting
an `OverflowError` into `EncodeMessageError`. -/
def encodeDataStep (acc : List Nat) (kv : List Nat × Nat) : Except PyError (List Nat) := do
  let vB ← (pyToBytes 4 kv.2).mapError (fun _ => PyError.encodeError)
  pure (acc ++ (trim_bytes kv.1 8 ++ vB))

/-- Python `sorted(self.data.keys())` combined with the per-key dict
lookup of `_encode_data`: since a dict has pairwise distinct keys,
iterating the sorted key list and looking each key up is iterating the
item list sorted by key (string order on UTF-8 encodings is `lexLe`). -/
def sortedItems (d : List (List Nat × Nat)) : List (List Nat × Nat) :=
  List.insertionSort (fun p q => lexLe p.1 q.1 = true) d

/-- Method `SourceMessage._encode_data`: fields ordered by name, each as
an 8-byte trimmed name followed by a 4-byte big-endian value. -/
def encode_data (d : List (List Nat × Nat)) : Except PyError (List Nat) :=
  (sortedItems d).foldlM encodeDataStep []

/-- Method `SourceMessage.get_raw`: header byte, 2-byte `num` (an
`OverflowError` becomes `EncodeMessageError`), 8-byte trimmed
`source_id`, 1-byte `status` (a bare `except` turns any failure into
`EncodeMessageError`), then either the field count and encoded data (for
a truthy `data`) or a zero count byte; finally the accumulated list goes
through `bytes(...)`. -/
def SourceMessage.get_raw (m : SourceMessage) : Except PyError (List Nat) := do
  let numB ← (pyToBytes 2 m.num).mapError (fun _ => PyError.encodeError)
  let idB := trim_bytes m.source_id 8
  let statusB ← (pyToBytes 1 m.status).mapError (fun _ => PyError.encodeError)
  let tail ← match m.data with
    | some d =>
      if d.isEmpty then pure [0x00]
      else do
        let dataB ← encode_data d
        pure (d.length :: dataB)
    | none => pure [0x00]
  pyBytes (m.header :: (numB ++ idB ++ statusB ++ tail))

/-- Method `check_sum` of `AbstractMessage` specialized to
`SourceMessage`: the XOR checksum of the raw message. -/
def SourceMessage.check_sum (m : SourceMessage) : Except PyError Nat := do
  let raw ← m.get_raw
  xor_checksum raw

/-- Method `encode` of `AbstractMessage` specialized to `SourceMessage`:
the raw bytes followed by `bytes((check_sum,))`. -/
def SourceMessage.encode (m : SourceMessage) : Except PyError (List Nat) := do
  let raw ← m.get_raw
  let cs ← xor_checksum raw
  let csB ← pyBytes [cs]
  pure (raw ++ csB)

/-- Loop body of `SourceMessage._decode_data`: decode the 8-byte field
name (stripping zero bytes), read the 4-byte value, store into the
result dict. -/
def decodeChunkStep (result : List (List Nat × Nat)) (chunk : List Nat) :
    Except PyError (List (List Nat × Nat)) := do
  let fieldRaw ← pyDecodeUtf8 (chunk.take 8)
  pure (dictInsert (fieldRaw.filter (fun b => b ≠ 0)) (fromBytesBE (chunk.drop 8)) result)

/-- List comprehension
`[bytes_data[i*chunk_size:(i+1)*chunk_size] for i in range(num_fields)]`
of `_decode_data` with `chunk_size = 12`. -/
def rangeChunks (num_fields : Nat) (bytes_data : List Nat) : List (List Nat) :=
  (List.range num_fields).map (fun i => (bytes_data.take ((i + 1) * 12)).drop (i * 12))

/-- Method `SourceMessage._decode_data`: raises `DecodeMessageError` when
the data length disagrees with the declared field count, otherwise
splits into 12-byte chunks and builds the field dict. -/
def _decode_data (bytes_data : List Nat) (num_fields : Nat) :
    Except PyError (List (List Nat × Nat)) :=
  if bytes_data.length ≠ num_fields * 12 then .error .decodeError
  else (rangeChunks num_fields bytes_data).foldlM decodeChunkStep []

/-- Method `SourceMessage.decode`: reads header, trailing checksum and
body positionally, strips zero bytes from the identifier, decodes the
field data when the count byte is positive (a `DecodeMessageError`
becomes `InvalidMessageException`), rebuilds the message through the
constructor and compares the recomputed checksum with the trailing
byte. -/
def SourceMessage.decode (bytes_data : List Nat) : Except PyError SourceMessage := do
  let header ← pyIndex bytes_data 0
  let check_sum ← pyLast bytes_data
  let data_body := (bytes_data.dropLast).drop 1
  let num := fromBytesBE (data_body.take 2)
  let sidRaw ← pyDecodeUtf8 ((data_body.take 10).drop 2)
  let source_id := sidRaw.filter (fun b => b ≠ 0)
  let status ← pyIndex data_body 10
  let num_fields ← pyIndex data_body 11
  let data ← if num_fields > 0 then
      match _decode_data (data_body.drop 12) num_fields with
      | .ok d => pure (some d)
      | .error .decodeError => .error .invalidMessage
      | .error e => .error e
    else pure none
  let message ← mkSourceMessage num source_id status header data
  let cs ← message.check_sum
  if cs ≠ check_sum then .error .invalidMessage
  else pure message

/-- Method `ServerMessage.get_raw`: header byte and 2-byte `num`. -/
def ServerMessage.get_raw (m : ServerMessage) : Except PyError (List Nat) := do
  let numB ← (pyToBytes 2 m.num).mapError (fun _ => PyError.encodeError)
  pyBytes (m.header :: numB)

/-- Method `check_sum` of `AbstractMessage` specialized to
`ServerMessage`. -/
def ServerMessage.check_sum (m : ServerMessage) : Except PyError Nat := do
  let raw ← m.get_raw
  xor_checksum raw

/-- Method `encode` of `AbstractMessage` specialized to `ServerMessage`. -/
def ServerMessage.encode (m : ServerMessage) : Except PyError (List Nat) := do
  let raw ← m.get_raw
  let cs ← xor_checksum raw
  let csB ← pyBytes [cs]
  pure (raw ++ csB)

/-- Method `ServerMessage.decode`.  On a checksum mismatch the code
builds the error text with `'Invalid message {} from source {}'.format(num)`;
this `format` call has two placeholders but one argument, so it raises
`IndexError` before the `InvalidMessageException` is raised. -/
def ServerMessage.decode (bytes_data : List Nat) : Except PyError ServerMessage := do
  let header ← pyIndex bytes_data 0
  let check_sum ← pyLast bytes_data
  let data_body := (bytes_data.dropLast).drop 1
  let num := fromBytesBE (data_body.take 2)
  let message ← mkServerMessage num header
  let cs ← message.check_sum
  if cs ≠ check_sum then .error .indexError
  else pure message

/-- Tornado `stream.read_bytes(n)` on a stream whose currently available
bytes are `s`: yields the bytes and the remaining stream, suspending
(`wouldBlock`) when fewer than `n` bytes have arrived. -/
def readBytes (n : Nat) (s : List Nat) : Except PyError (List Nat × List Nat) :=
  if s.length < n then .error .wouldBlock else .ok (s.take n, s.drop n)

/-- Method `SourceMessage.decode_stream`: re-prepends the header byte,
reads `num` (2), `source_id` (8), `status` (1) and the field count (1),
then `count * chunk_size` data bytes when the count is positive, then
the checksum byte, and delegates to `decode`.  Returns the decoded
message together with the not-yet-consumed bytes of the stream. -/
def SourceMessage.decode_stream (header : Nat) (s : List Nat) :
    Except PyError (SourceMessage × List Nat) := do
  let hB ← pyToBytes 1 header
  let (numB, s) ← readBytes 2 s
  let (idB, s) ← readBytes 8 s
  let (stB, s) ← readBytes 1 s
  let (nfB, s) ← readBytes 1 s
  let nf := fromBytesBE nfB
  let (dataB, s) ← if nf > 0 then readBytes (nf * 12) s else pure ([], s)
  let (csB, s) ← readBytes 1 s
  let m ← SourceMessage.decode (hB ++ numB ++ idB ++ stB ++ nfB ++ dataB ++ csB)
  pure (m, s)

/-- Method `ServerMessage.decode_stream`: re-prepends the header byte,
reads `num` (2) and the checksum byte, and delegates to `decode`. -/
def ServerMessage.decode_stream (header : Nat) (s : List Nat) :
    Except PyError (ServerMessage × List Nat) := do
  let hB ← pyToBytes 1 header
  let (numB, s) ← readBytes 2 s
  let (csB, s) ← readBytes 1 s
  let m ← ServerMessage.decode (hB ++ numB ++ csB)
  pure (m, s)

/-- State of a `Source` instance (`base/source.py`): identifier, current
status and the append-only message list. -/
structure Source where
  source_id : List Nat
  status : Nat
  messages : List SourceMessage
deriving DecidableEq, Repr

/-- Status setter of `BaseSource` for the concrete `Source` class, whose
`STATUS` dict is `{1: IDLE, 2: ACTIVE, 3: RECHARGE}`: a value outside it
raises `SourceException`. -/
def Source.setStatus (s : Source) (v : Nat) : Except PyError Source :=
  if v = 1 ∨ v = 2 ∨ v = 3 then .ok { s with status := v } else .error .sourceError

/-- Constructor `Source.__init__` / `BaseSource.__init__`: an identifier
longer than `SOURCE_NAME_LENGTH = 8` raises `SourceException`; `if not
status` substitutes `DEFAULT_STATUS = STATUS_IDLE = 1` for both the
`None` default and an explicit `0`; the resulting status goes through
the checking setter.  The `_status = None` class-level initial value is
modeled as `0`, observable only through the setter's result. -/
def mkSource (source_id : List Nat) (status : Nat) : Except PyError Source :=
  if 8 < source_id.length then .error .sourceError
  else
    let st := if status = 0 then 1 else status
    Source.setStatus { source_id := source_id, status := 0, messages := [] } st

/-- Method `BaseSource.get_message`: assigns the message's status through
the checking setter, then appends the message. -/
def Source.get_message (s : Source) (m : SourceMessage) : Except PyError Source := do
  let s' ← s.setStatus m.status
  .ok { s' with messages := s'.messages ++ [m] }

/-- State of a `BaseListener` (`base/listener.py`): whether its transport
stream is still open. -/
structure Listener where
  alive : Bool
deriving DecidableEq, Repr

/-- Method `BaseListener.send`: `stream.write` raises
`StreamClosedError` on a closed transport, converted into
`ListenerClosedException`. The payload (the textual summary
`str(message).encode()`) does not influence success. -/
def Listener.send (l : Listener) : Except PyError Unit :=
  if l.alive then .ok () else .error .listenerClosed

/-- Value of how one `broadcast_message` call went: the addresses written
to (in iteration order), the final listener registry, and the error that
escaped to the caller, if any. -/
structure BroadcastResult where
  delivered : List Nat
  listeners : List (Nat × Listener)
  error : Option PyError
deriving DecidableEq, Repr

/-- Python `dict.pop(key)` on the listener registry. -/
def registryPop (k : Nat) : List (Nat × Listener) → List (Nat × Listener)
  | [] => []
  | (k', l) :: rest => if k' = k then rest else (k', l) :: registryPop k rest

/-- Loop of `ApplicationServer.broadcast_message` over
`self.listeners.items()`: `reg` is the current dict, `remaining` the
items the iterator has not yielded yet, `mutated` whether the dict
changed size since iteration began.  A CPython dict iterator raises
`RuntimeError('dictionary changed size during iteration')` at the next
advance after a size change, including the final advance that would
report exhaustion; a failed `send` pops the listener inside the
`except ListenerClosedException` handler and thereby sets `mutated`. -/
def broadcastLoop (reg : List (Nat × Listener)) : List (Nat × Listener) → Bool → List Nat →
    BroadcastResult
  | _, true, delivered => ⟨delivered, reg, some .runtimeError⟩
  | [], false, delivered => ⟨delivered, reg, none⟩
  | (addr, l) :: rest, false, delivered =>
    match l.send with
    | .ok _ => broadcastLoop reg rest false (delivered ++ [addr])
    | .error _ => broadcastLoop (registryPop addr reg) rest true delivered

/-- Method `ApplicationServer.broadcast_message`: when the registry is
truthy, iterate over its items, sending to each listener and popping a
listener whose send failed. -/
def broadcast_message (listeners : List (Nat × Listener)) : BroadcastResult :=
  if listeners.isEmpty then ⟨[], listeners, none⟩
  else broadcastLoop listeners listeners false []

instance {ε α : Type} [DecidableEq ε] [DecidableEq α] : DecidableEq (Except ε α) := fun x y =>
  match x, y with
  | .ok a, .ok b =>
    if h : a = b then isTrue (by rw [h]) else isFalse (by intro hc; cases hc; exact h rfl)
  | .ok _, .error _ => isFalse (by intro hc; cases hc)
  | .error _, .ok _ => isFalse (by intro hc; cases hc)
  | .error e, .error f =>
    if h : e = f then isTrue (by rw [h]) else isFalse (by intro hc; cases hc; exact h rfl)

/-- Pure form of the encoded field data of `_encode_data`, chunk by
chunk, used to state what `encode_data` produces. -/
def encChunks : List (List Nat × Nat) → List Nat
  | [] => []
  | kv :: rest => trim_bytes kv.1 8 ++ natToBytesBE 4 kv.2 ++ encChunks rest

/-- Validity of a Python string field of the wire format, represented by
its UTF-8 bytes: well-formed UTF-8, at most 8 bytes, and no zero byte
(the wire format cannot carry NUL characters, since decode strips zero
bytes). -/
def ValidText (s : List Nat) : Prop :=
  utf8Valid s = true ∧ s.length ≤ 8 ∧ ∀ b ∈ s, 0 < b ∧ b < 256

instance (s : List Nat) : Decidable (ValidText s) :=
  inferInstanceAs (Decidable (_ ∧ _ ∧ _))

/-- Validity of the optional field map of a `StatusMessage`: absent, or a
nonempty dict of at most 255 valid names mapped to 32-bit values, held
in canonical form (strictly ascending key order — the association-list
rendering of a Python dict whose iteration order matches the
deterministic wire order). -/
def ValidFieldMap : Option (List (List Nat × Nat)) → Prop
  | none => True
  | some d =>
    d ≠ [] ∧ d.length ≤ 255 ∧ (∀ kv ∈ d, ValidText kv.1 ∧ kv.2 < 2 ^ 32) ∧
      d.Pairwise (fun p q => lexLt p.1 q.1 = true)

instance : (o : Option (List (List Nat × Nat))) → Decidable (ValidFieldMap o)
  | none => isTrue trivial
  | some _ => inferInstanceAs (Decidable (_ ∧ _ ∧ _ ∧ _))

/-- Validity of a `StatusMessage` per the wire format: header `0x01`,
16-bit sequence number, valid identifier, status in the defined set, and
a valid field map. -/
def ValidStatusMessage (m : SourceMessage) : Prop :=
  m.header = 1 ∧ m.num < 2 ^ 16 ∧ ValidText m.source_id ∧
    (m.status = 1 ∨ m.status = 2 ∨ m.status = 3) ∧ ValidFieldMap m.data

instance (m : SourceMessage) : Decidable (ValidStatusMessage m) :=
  inferInstanceAs (Decidable (_ ∧ _ ∧ _ ∧ _ ∧ _))

/-- Validity of an `AckMessage`: header in `{0x11, 0x12}`, 16-bit
sequence number, and sequence `0` when the header is `0x12`. -/
def ValidAckMessage (a : ServerMessage) : Prop :=
  (a.header = 0x11 ∨ a.header = 0x12) ∧ a.num < 2 ^ 16 ∧ (a.header = 0x12 → a.num = 0)

instance (a : ServerMessage) : Decidable (ValidAckMessage a) :=
  inferInstanceAs (Decidable (_ ∧ _ ∧ _))

/-- StatusMessage with 256 distinct small fields: its field count does
not fit the 1-byte count slot. -/
def overflowCountMessage : SourceMessage :=
  ⟨1, 1, [0x61, 0x62, 0x63], 1,
    some ((List.range 256).map (fun i => ([i / 16 + 1, i % 16 + 1], i)))⟩

/-- Tail of the raw frame after the status byte: the count byte and the
encoded field chunks (for a truthy field map), else a zero count byte. -/
def msgTail : Option (List (List Nat × Nat)) → List Nat
  | none => [0]
  | some d => if d.isEmpty then [0] else d.length :: encChunks d

/-- Raw frame (without checksum) of a canonically valid `StatusMessage`,
stated purely: header, 2-byte `num`, 8-byte identifier slot, status
byte, then the field tail. -/
def rawOf (m : SourceMessage) : List Nat :=
  m.header :: (natToBytesBE 2 m.num ++ trim_bytes m.source_id 8 ++ natToBytesBE 1 m.status ++
    msgTail m.data)

/-- XOR checksum of the raw frame of a `StatusMessage`, stated purely. -/
def csOf (m : SourceMessage) : Nat :=
  (natToBytesBE 2 m.num ++ trim_bytes m.source_id 8 ++ natToBytesBE 1 m.status ++
    msgTail m.data).foldl Nat.xor m.header

theorem bind_ok_eq {ε α β : Type} (a : α) (f : α → Except ε β) :
    (Except.ok a : Except ε α) >>= f = f a := rfl

theorem bind_pure_eq {ε α β : Type} (a : α) (f : α → Except ε β) :
    (pure a : Except ε α) >>= f = f a := rfl

theorem bind_err_eq {ε α β : Type} (e : ε) (f : α → Except ε β) :
    (Except.error e : Except ε α) >>= f = .error e := rfl

theorem natToBytesBE_length (k v : Nat) : (natToBytesBE k v).length = k := by
  induction k generalizing v with
  | zero => rfl
  | succ n ih => simp [natToBytesBE, ih]

theorem natToBytesBE_lt (k v : Nat) : ∀ b ∈ natToBytesBE k v, b < 256 := by
  induction k generalizing v with
  | zero => intro b hb; cases hb
  | succ n ih =>
    intro b hb
    simp only [natToBytesBE, List.mem_append, List.mem_singleton] at hb
    rcases hb with hb | hb
    · exact ih _ b hb
    · subst hb; exact Nat.mod_lt _ (by norm_num)

theorem fromBytesBE_concat (l : List Nat) (b : Nat) :
    fromBytesBE (l ++ [b]) = fromBytesBE l * 256 + b := by
  simp [fromBytesBE, List.foldl_append]

theorem fromBytes_toBytes {k v : Nat} (h : v < 256 ^ k) :
    fromBytesBE (natToBytesBE k v) = v := by
  induction k generalizing v with
  | zero =>
    have : v = 0 := by simpa using h
    simp [this, natToBytesBE, fromBytesBE]
  | succ n ih =>
    have hd : v / 256 < 256 ^ n := by
      rw [Nat.div_lt_iff_lt_mul (by norm_num)]
      calc v < 256 ^ (n + 1) := h
        _ = 256 ^ n * 256 := by ring
    rw [natToBytesBE, fromBytesBE_concat, ih hd]
    have := Nat.div_add_mod v 256
    omega

theorem pyToBytes_ok {k v : Nat} (h : v < 256 ^ k) :
    pyToBytes k v = .ok (natToBytesBE k v) := by
  simp [pyToBytes, h]

theorem pyToBytes_err {k v : Nat} (h : 256 ^ k ≤ v) :
    pyToBytes k v = .error .overflowError := by
  simp [pyToBytes, Nat.not_lt.mpr h]

theorem natToBytesBE_one {v : Nat} (h : v < 256) : natToBytesBE 1 v = [v] := by
  simp [natToBytesBE, Nat.mod_eq_of_lt h]

theorem trim_bytes_length (s : List Nat) (n : Nat) : (trim_bytes s n).length = n := by
  have hle : (s.take n).length ≤ n := by simp [List.length_take]
  simp only [trim_bytes]
  by_cases h : (s.take n).length < n
  · simp only [h, if_true, List.length_append, List.length_replicate]
    omega
  · simp only [h, if_false]
    omega

theorem trim_bytes_pad {s : List Nat} {n : Nat} (h : s.length ≤ n) :
    trim_bytes s n = List.replicate (n - s.length) 0 ++ s := by
  have ht : s.take n = s := List.take_of_length_le h
  simp only [trim_bytes, ht]
  by_cases hl : s.length < n
  · simp [hl]
  · have : s.length = n := by omega
    simp [this]

theorem trim_bytes_take {s : List Nat} {n : Nat} (h : n ≤ s.length) :
    trim_bytes s n = s.take n := by
  have : (s.take n).length = n := by simp [List.length_take]; omega
  simp [trim_bytes, this]

theorem trim_bytes_mem {s : List Nat} {n b : Nat} (h : b ∈ trim_bytes s n) :
    b = 0 ∨ b ∈ s := by
  simp only [trim_bytes] at h
  have htake : ∀ x ∈ s.take n, x ∈ s := fun x hx => List.take_subset n s hx
  by_cases hl : (s.take n).length < n
  · simp only [hl, if_true, List.mem_append] at h
    rcases h with h | h
    · exact Or.inl (List.eq_of_mem_replicate h)
    · exact Or.inr (htake b h)
  · simp only [hl, if_false] at h
    exact Or.inr (htake b h)

theorem utf8Valid_zero_cons (l : List Nat) : utf8Valid (0 :: l) = utf8Valid l := by
  simp [utf8Valid, utf8Go]

theorem utf8Valid_pad (k : Nat) (l : List Nat) :
    utf8Valid (List.replicate k 0 ++ l) = utf8Valid l := by
  induction k with
  | zero => rfl
  | succ n ih => rw [List.replicate_succ, List.cons_append, utf8Valid_zero_cons, ih]

theorem filter_pad (k : Nat) {s : List Nat} (h : ∀ b ∈ s, 0 < b) :
    (List.replicate k 0 ++ s).filter (fun b => b ≠ 0) = s := by
  induction k with
  | zero =>
    simp only [List.replicate_zero, List.nil_append]
    refine List.filter_eq_self.mpr ?_
    intro b hb
    have := h b hb
    simp only [ne_eq, decide_eq_true_eq]
    omega
  | succ n ih =>
    simp only [List.replicate_succ, List.cons_append, List.filter_cons]
    simpa using ih

theorem lexLt_ne {a b : List Nat} (h : lexLt a b = true) : a ≠ b := by
  induction a generalizing b with
  | nil =>
    cases b with
    | nil => simp [lexLt] at h
    | cons y ys => simp
  | cons x xs ih =>
    cases b with
    | nil => simp [lexLt] at h
    | cons y ys =>
      simp only [lexLt] at h
      by_cases h1 : x < y
      · intro he
        rw [List.cons.injEq] at he
        omega
      · by_cases h2 : x = y
        · rw [if_neg h1, if_pos h2] at h
          intro he
          rw [List.cons.injEq] at he
          exact ih h he.2
        · simp [h1, h2] at h

theorem lexLt_le {a b : List Nat} (h : lexLt a b = true) : lexLe a b = true := by
  induction a generalizing b with
  | nil => cases b <;> simp [lexLe]
  | cons x xs ih =>
    cases b with
    | nil => simp [lexLt] at h
    | cons y ys =>
      simp only [lexLt] at h
      simp only [lexLe]
      by_cases h1 : x < y
      · simp [h1]
      · by_cases h2 : x = y
        · rw [if_neg h1, if_pos h2] at h ⊢
          exact ih h
        · simp [h1, h2] at h

theorem foldl_xor_lt {l : List Nat} (hl : ∀ b ∈ l, b < 256) :
    ∀ {x : Nat}, x < 256 → l.foldl Nat.xor x < 256 := by
  induction l with
  | nil => intro x hx; simpa using hx
  | cons a t ih =>
    intro x hx
    simp only [List.foldl_cons]
    refine ih (fun b hb => hl b (by simp [hb])) ?_
    have h1 : x < 2 ^ 8 := by norm_num at hx ⊢; omega
    have h2 : a < 2 ^ 8 := by have := hl a (by simp); norm_num; omega
    have := Nat.xor_lt_two_pow h1 h2
    norm_num at this
    exact this

theorem pyBytes_ok {l : List Nat} (h : ∀ b ∈ l, b < 256) : pyBytes l = .ok l := by
  have hall : l.all (fun b => b < 256) = true := by
    rw [List.all_eq_true]
    intro x hx
    simpa using h x hx
  simp [pyBytes, hall]

theorem pyBytes_err {l : List Nat} {b : Nat} (hb : b ∈ l) (h : 256 ≤ b) :
    pyBytes l = .error .valueError := by
  have hall : ¬ (l.all (fun b => b < 256) = true) := by
    intro hc
    have := List.all_eq_true.mp hc b hb
    simp at this
    omega
  simp [pyBytes, hall]

theorem encodeFold_ok {items : List (List Nat × Nat)} (h : ∀ kv ∈ items, kv.2 < 2 ^ 32) :
    ∀ acc : List Nat, items.foldlM encodeDataStep acc = .ok (acc ++ encChunks items) := by
  induction items with
  | nil => intro acc; simp [encChunks]; rfl
  | cons kv rest ih =>
    intro acc
    have hv : kv.2 < 256 ^ 4 := by
      have := h kv (by simp)
      norm_num at this ⊢
      omega
    have hstep : encodeDataStep acc kv =
        .ok (acc ++ (trim_bytes kv.1 8 ++ natToBytesBE 4 kv.2)) := by
      simp [encodeDataStep, pyToBytes_ok hv, Except.mapError]
    rw [List.foldlM_cons, hstep]
    show Except.bind _ _ = _
    rw [Except.bind]
    rw [ih (fun x hx => h x (by simp [hx]))]
    simp [encChunks]

theorem sortedItems_perm (d : List (List Nat × Nat)) : (sortedItems d).Perm d :=
  List.perm_insertionSort _ d

theorem sortedItems_eq {d : List (List Nat × Nat)}
    (h : d.Pairwise (fun p q => lexLt p.1 q.1 = true)) : sortedItems d = d :=
  List.Sorted.insertionSort_eq (h.imp fun hpq => lexLt_le hpq)

theorem encode_data_ok_any {d : List (List Nat × Nat)} (h : ∀ kv ∈ d, kv.2 < 2 ^ 32) :
    encode_data d = .ok (encChunks (sortedItems d)) := by
  unfold encode_data
  rw [encodeFold_ok (fun kv hkv => h kv ((sortedItems_perm d).subset hkv)) []]
  simp

theorem encodeFold_err {items : List (List Nat × Nat)} (h : ∃ kv ∈ items, 2 ^ 32 ≤ kv.2) :
    ∀ acc : List Nat, items.foldlM encodeDataStep acc = .error .encodeError := by
  induction items with
  | nil => simp at h
  | cons kv rest ih =>
    intro acc
    rw [List.foldlM_cons]
    by_cases hkv : kv.2 < 2 ^ 32
    · have hv : kv.2 < 256 ^ 4 := by norm_num at hkv ⊢; omega
      have hstep : encodeDataStep acc kv =
          .ok (acc ++ (trim_bytes kv.1 8 ++ natToBytesBE 4 kv.2)) := by
        simp [encodeDataStep, pyToBytes_ok hv, Except.mapError]
      rw [hstep]
      show Except.bind _ _ = _
      rw [Except.bind]
      refine ih ?_ _
      obtain ⟨kv', hm, hbig⟩ := h
      rcases List.mem_cons.mp hm with he | hm'
      · subst he; omega
      · exact ⟨kv', hm', hbig⟩
    · have hv : 256 ^ 4 ≤ kv.2 := by norm_num at hkv ⊢; omega
      have hstep : encodeDataStep acc kv = .error .encodeError := by
        simp [encodeDataStep, pyToBytes_err hv, Except.mapError]
      rw [hstep]
      rfl

theorem encode_data_err {d : List (List Nat × Nat)} (h : ∃ kv ∈ d, 2 ^ 32 ≤ kv.2) :
    encode_data d = .error .encodeError := by
  unfold encode_data
  obtain ⟨kv, hm, hbig⟩ := h
  exact encodeFold_err ⟨kv, ((sortedItems_perm d).mem_iff).mpr hm, hbig⟩ []

theorem encChunks_length (d : List (List Nat × Nat)) : (encChunks d).length = 12 * d.length := by
  induction d with
  | nil => rfl
  | cons kv rest ih =>
    simp only [encChunks, List.length_append, List.length_cons, ih, trim_bytes_length,
      natToBytesBE_length]
    ring

theorem encChunks_mem_lt {d : List (List Nat × Nat)} (h : ∀ kv ∈ d, ∀ b ∈ kv.1, b < 256) :
    ∀ b ∈ encChunks d, b < 256 := by
  induction d with
  | nil => intro b hb; cases hb
  | cons kv rest ih =>
    intro b hb
    simp only [encChunks, List.mem_append] at hb
    rcases hb with (hb | hb) | hb
    · rcases trim_bytes_mem hb with h0 | hk
      · omega
      · exact h kv (by simp) b hk
    · exact natToBytesBE_lt 4 kv.2 b hb
    · exact ih (fun x hx => h x (by simp [hx])) b hb

theorem dictInsert_append {acc : List (List Nat × Nat)} {k : List Nat} {v : Nat}
    (h : ∀ p ∈ acc, p.1 ≠ k) : dictInsert k v acc = acc ++ [(k, v)] := by
  induction acc with
  | nil => rfl
  | cons p rest ih =>
    have hp : p.1 ≠ k := h p (by simp)
    cases p with
    | mk k' v' =>
      simp only [dictInsert, if_neg hp, List.cons_append, List.cons.injEq, true_and]
      exact ih fun q hq => h q (by simp [hq])

theorem rangeChunks_cons {pre : List Nat} (rest : List Nat) (n : Nat) (hpre : pre.length = 12) :
    rangeChunks (n + 1) (pre ++ rest) = pre :: rangeChunks n rest := by
  unfold rangeChunks
  rw [List.range_succ_eq_map, List.map_cons, List.map_map]
  congr 1
  · norm_num
    exact List.take_left' hpre
  · refine List.map_congr_left ?_
    intro i _
    simp only [Function.comp_apply, Nat.succ_eq_add_one]
    rw [List.take_append_eq_append_take, List.drop_append_eq_append_drop]
    have h1 : pre.take ((i + 1 + 1) * 12) = pre := List.take_of_length_le (by omega)
    have h2 : pre.drop ((i + 1) * 12) = [] := List.drop_eq_nil_of_le (by omega)
    rw [h1, h2, hpre]
    have h3 : (i + 1 + 1) * 12 - 12 = (i + 1) * 12 := by ring_nf; omega
    have h4 : (i + 1) * 12 - 12 = i * 12 := by ring_nf; omega
    rw [h3, h4]
    simp

theorem decodeFold_ok {d : List (List Nat × Nat)}
    (hval : ∀ kv ∈ d, ValidText kv.1 ∧ kv.2 < 2 ^ 32)
    (hdis : d.Pairwise (fun p q => p.1 ≠ q.1)) :
    ∀ acc : List (List Nat × Nat), (∀ q ∈ d, ∀ p ∈ acc, p.1 ≠ q.1) →
      (rangeChunks d.length (encChunks d)).foldlM decodeChunkStep acc = .ok (acc ++ d) := by
  induction d with
  | nil => intro acc _; simp [rangeChunks, encChunks]; rfl
  | cons kv rest ih =>
    intro acc hacc
    obtain ⟨⟨hutf, hlen, hbytes⟩, hv⟩ := hval kv (by simp)
    have hchunk : encChunks (kv :: rest) =
        (trim_bytes kv.1 8 ++ natToBytesBE 4 kv.2) ++ encChunks rest := by
      simp [encChunks]
    rw [List.length_cons, hchunk,
      rangeChunks_cons _ _ (by simp [trim_bytes_length, natToBytesBE_length]),
      List.foldlM_cons]
    have htake : (trim_bytes kv.1 8 ++ natToBytesBE 4 kv.2).take 8 = trim_bytes kv.1 8 :=
      List.take_left' (trim_bytes_length _ _)
    have hdrop : (trim_bytes kv.1 8 ++ natToBytesBE 4 kv.2).drop 8 = natToBytesBE 4 kv.2 :=
      List.drop_left' (trim_bytes_length _ _)
    have hpad : trim_bytes kv.1 8 = List.replicate (8 - kv.1.length) 0 ++ kv.1 :=
      trim_bytes_pad hlen
    have hu : utf8Valid (trim_bytes kv.1 8) = true := by
      rw [hpad, utf8Valid_pad]
      exact hutf
    have hfil : (trim_bytes kv.1 8).filter (fun b => b ≠ 0) = kv.1 := by
      rw [hpad]
      exact filter_pad _ fun b hb => (hbytes b hb).1
    have hfv : fromBytesBE (natToBytesBE 4 kv.2) = kv.2 :=
      fromBytes_toBytes (by norm_num at hv ⊢; omega)
    have hins : dictInsert kv.1 kv.2 acc = acc ++ [kv] := by
      rw [dictInsert_append (fun p hp => hacc kv (by simp) p hp)]
    have hstep : decodeChunkStep acc (trim_bytes kv.1 8 ++ natToBytesBE 4 kv.2) =
        .ok (acc ++ [kv]) := by
      simp only [decodeChunkStep, htake, hdrop, pyDecodeUtf8, hu, if_true, hfv]
      show Except.bind _ _ = _
      rw [Except.bind]
      rw [hfil, hins]
      rfl
    rw [hstep]
    show Except.bind _ _ = _
    rw [Except.bind]
    have := ih (fun x hx => hval x (by simp [hx])) (List.Pairwise.of_cons hdis) (acc ++ [kv]) ?_
    · rw [this]
      simp
    · intro q hq p hp
      rcases List.mem_append.mp hp with hp' | hp'
      · exact hacc q (by simp [hq]) p hp'
      · have : p = kv := by simpa using hp'
        subst this
        exact (List.pairwise_cons.mp hdis).1 q hq

theorem decode_data_roundtrip {d : List (List Nat × Nat)}
    (hval : ∀ kv ∈ d, ValidText kv.1 ∧ kv.2 < 2 ^ 32)
    (hdis : d.Pairwise (fun p q => p.1 ≠ q.1)) :
    _decode_data (encChunks d) d.length = .ok d := by
  unfold _decode_data
  rw [encChunks_length]
  simp only [Nat.mul_comm, ne_eq, not_true_eq_false, if_false]
  have := decodeFold_ok hval hdis [] (by simp)
  simpa using this

theorem rawOf_mem_lt {m : SourceMessage} (hm : ValidStatusMessage m) :
    ∀ b ∈ rawOf m, b < 256 := by
  obtain ⟨hh, hnum, hid, hst, hdata⟩ := hm
  intro b hb
  simp only [rawOf, List.mem_cons, List.mem_append] at hb
  rcases hb with hb | ((hb | hb) | hb) | hb
  · rw [hb, hh]; norm_num
  · exact natToBytesBE_lt 2 m.num b hb
  · rcases trim_bytes_mem hb with h0 | hk
    · omega
    · exact (hid.2.2 b hk).2
  · exact natToBytesBE_lt 1 m.status b hb
  · rcases hdm : m.data with _ | d
    · rw [hdm] at hb
      simp [msgTail] at hb
      omega
    · rw [hdm] at hb hdata
      obtain ⟨hne, hlen, hkv, hsorted⟩ := hdata
      have hdne : d.isEmpty = false := by
        cases d with
        | nil => exact absurd rfl hne
        | cons x xs => rfl
      simp only [msgTail, hdne, Bool.false_eq_true, if_false, List.mem_cons] at hb
      rcases hb with hb | hb
      · omega
      · exact encChunks_mem_lt (fun kv hkvm y hy => ((hkv kv hkvm).1.2.2 y hy).2) b hb

theorem get_raw_ok {m : SourceMessage} (hm : ValidStatusMessage m) :
    m.get_raw = .ok (rawOf m) := by
  obtain ⟨hh, hnum, hid, hst, hdata⟩ := hm
  have h2 : m.num < 256 ^ 2 := by norm_num at hnum ⊢; omega
  have h1 : m.status < 256 ^ 1 := by rcases hst with h | h | h <;> simp [h]
  have hlt : ∀ b ∈ rawOf m, b < 256 := rawOf_mem_lt ⟨hh, hnum, hid, hst, hdata⟩
  rcases hdm : m.data with _ | d
  · have hraw : rawOf m = m.header :: (natToBytesBE 2 m.num ++ trim_bytes m.source_id 8 ++
        natToBytesBE 1 m.status ++ [0]) := by
      rw [rawOf, hdm]
      rfl
    simp only [SourceMessage.get_raw, pyToBytes_ok h2, pyToBytes_ok h1, Except.mapError, hdm,
      bind_ok_eq, bind_pure_eq]
    rw [← hraw]
    exact pyBytes_ok hlt
  · rw [hdm] at hdata
    obtain ⟨hne, hlen, hkv, hsorted⟩ := hdata
    have hdne : d.isEmpty = false := by
      cases d with
      | nil => exact absurd rfl hne
      | cons x xs => rfl
    have henc : encode_data d = .ok (encChunks d) := by
      rw [encode_data_ok_any (fun kv hkvm => (hkv kv hkvm).2), sortedItems_eq hsorted]
    have hraw : rawOf m = m.header :: (natToBytesBE 2 m.num ++ trim_bytes m.source_id 8 ++
        natToBytesBE 1 m.status ++ (d.length :: encChunks d)) := by
      rw [rawOf, hdm]
      simp [msgTail, hdne]
    simp only [SourceMessage.get_raw, pyToBytes_ok h2, pyToBytes_ok h1, Except.mapError, hdm,
      hdne, Bool.false_eq_true, if_false, henc, bind_ok_eq, bind_pure_eq]
    rw [← hraw]
    exact pyBytes_ok hlt

theorem xor_checksum_rawOf (m : SourceMessage) : xor_checksum (rawOf m) = .ok (csOf m) := rfl

theorem csOf_lt {m : SourceMessage} (hm : ValidStatusMessage m) : csOf m < 256 := by
  have hlt := rawOf_mem_lt hm
  have hh : m.header < 256 := hlt m.header (by rw [rawOf]; exact List.mem_cons_self _ _)
  refine foldl_xor_lt ?_ hh
  intro b hb
  exact hlt b (by rw [rawOf]; exact List.mem_cons_of_mem _ hb)

theorem encode_ok {m : SourceMessage} (hm : ValidStatusMessage m) :
    m.encode = .ok (rawOf m ++ [csOf m]) := by
  rw [SourceMessage.encode]
  rw [get_raw_ok hm]
  rw [bind_ok_eq, xor_checksum_rawOf, bind_ok_eq,
    pyBytes_ok (by intro b hb; simp at hb; rw [hb]; exact csOf_lt hm)]
  rfl

theorem check_sum_ok {m : SourceMessage} (hm : ValidStatusMessage m) :
    m.check_sum = .ok (csOf m) := by
  rw [SourceMessage.check_sum, get_raw_ok hm]
  rw [bind_ok_eq, xor_checksum_rawOf]

theorem exists_two {l : List Nat} (h : l.length = 2) : ∃ a0 a1, l = [a0, a1] := by
  rcases l with _ | ⟨a0, l⟩
  · simp at h
  rcases l with _ | ⟨a1, l⟩
  · simp at h
  rcases l with _ | ⟨a2, l⟩
  · exact ⟨a0, a1, rfl⟩
  · simp at h

theorem exists_eight {l : List Nat} (h : l.length = 8) :
    ∃ b0 b1 b2 b3 b4 b5 b6 b7, l = [b0, b1, b2, b3, b4, b5, b6, b7] := by
  rcases l with _ | ⟨b0, l⟩
  · simp at h
  rcases l with _ | ⟨b1, l⟩
  · simp at h
  rcases l with _ | ⟨b2, l⟩
  · simp at h
  rcases l with _ | ⟨b3, l⟩
  · simp at h
  rcases l with _ | ⟨b4, l⟩
  · simp at h
  rcases l with _ | ⟨b5, l⟩
  · simp at h
  rcases l with _ | ⟨b6, l⟩
  · simp at h
  rcases l with _ | ⟨b7, l⟩
  · simp at h
  rcases l with _ | ⟨b8, l⟩
  · exact ⟨b0, b1, b2, b3, b4, b5, b6, b7, rfl⟩
  · simp at h

theorem decode_encode {m : SourceMessage} (hm : ValidStatusMessage m) :
    SourceMessage.decode (rawOf m ++ [csOf m]) = .ok m := by
  obtain ⟨hh, hnum, hid, hst, hdata⟩ := hm
  have h2 : m.num < 256 ^ 2 := by norm_num at hnum ⊢; omega
  have hstlt : m.status < 256 := by rcases hst with h | h | h <;> simp [h]
  have hC : natToBytesBE 1 m.status = [m.status] := natToBytesBE_one hstlt
  obtain ⟨a0, a1, hA⟩ := exists_two (natToBytesBE_length 2 m.num)
  obtain ⟨b0, b1, b2, b3, b4, b5, b6, b7, hB⟩ := exists_eight (trim_bytes_length m.source_id 8)
  have hraw : rawOf m =
      m.header :: a0 :: a1 :: b0 :: b1 :: b2 :: b3 :: b4 :: b5 :: b6 :: b7 :: m.status ::
        msgTail m.data := by
    rw [rawOf, hA, hB, hC]
    simp
  have hnumv : fromBytesBE [a0, a1] = m.num := by
    rw [← hA]
    exact fromBytes_toBytes h2
  have hsidB : trim_bytes m.source_id 8 =
      List.replicate (8 - m.source_id.length) 0 ++ m.source_id :=
    trim_bytes_pad hid.2.1
  have hutf : utf8Valid [b0, b1, b2, b3, b4, b5, b6, b7] = true := by
    rw [← hB, hsidB, utf8Valid_pad]
    exact hid.1
  have hfil : List.filter (fun b => b ≠ 0) [b0, b1, b2, b3, b4, b5, b6, b7] = m.source_id := by
    rw [← hB, hsidB]
    exact filter_pad _ fun b hb => (hid.2.2 b hb).1
  have hmk : ∀ dd, mkSourceMessage m.num m.source_id m.status m.header dd =
      .ok ⟨1, m.num, m.source_id, m.status, dd⟩ := by
    intro dd
    rw [mkSourceMessage, hh]
    simp [hst]
  have hcs : SourceMessage.check_sum ⟨1, m.num, m.source_id, m.status, m.data⟩ =
      .ok (csOf m) := by
    have he : (⟨1, m.num, m.source_id, m.status, m.data⟩ : SourceMessage) = m := by
      conv_rhs => rw [show m = ⟨m.header, m.num, m.source_id, m.status, m.data⟩ from rfl, hh]
    rw [he]
    exact check_sum_ok ⟨hh, hnum, hid, hst, hdata⟩
  have hmeq : (⟨1, m.num, m.source_id, m.status, m.data⟩ : SourceMessage) = m := by
    conv_rhs => rw [show m = ⟨m.header, m.num, m.source_id, m.status, m.data⟩ from rfl, hh]
  rw [SourceMessage.decode]
  simp only [pyLast, List.getLast?_concat, List.dropLast_concat]
  rcases hdm : m.data with _ | d
  · rw [hdm] at hraw hcs hmeq
    have hD : msgTail none = [0] := rfl
    rw [hD] at hraw
    have hfil2 : List.filter (fun b => !decide (b = 0)) [b0, b1, b2, b3, b4, b5, b6, b7] =
        m.source_id := by
      rw [← hfil]
      simp
    simp [hraw, pyIndex, pyDecodeUtf8, hutf, hfil, hnumv, hmk, hcs, hmeq, bind_ok_eq,
      bind_pure_eq]
    rw [hfil2, hmk, bind_ok_eq, hcs, bind_ok_eq, hmeq]
    simp only [ne_eq, not_true_eq_false, if_false]
    rfl
  · rw [hdm] at hraw hcs hmeq
    obtain ⟨hne, hlen, hkv, hsorted⟩ := by rw [hdm] at hdata; exact hdata
    have hdne : d.isEmpty = false := by
      cases d with
      | nil => exact absurd rfl hne
      | cons x xs => rfl
    have hD : msgTail (some d) = d.length :: encChunks d := by
      simp [msgTail, hdne]
    rw [hD] at hraw
    have hpos : 0 < d.length := List.length_pos.mpr hne
    have hdecd : _decode_data (encChunks d) d.length = .ok d :=
      decode_data_roundtrip hkv (hsorted.imp fun hpq => lexLt_ne hpq)
    have hfil2 : List.filter (fun b => !decide (b = 0)) [b0, b1, b2, b3, b4, b5, b6, b7] =
        m.source_id := by
      rw [← hfil]
      simp
    simp [hraw, pyIndex, pyDecodeUtf8, hutf, hfil, hnumv, hmk, hcs, hmeq, hpos, hdecd,
      bind_ok_eq, bind_pure_eq]
    rw [hfil2, hmk, bind_ok_eq, hcs, bind_ok_eq, hmeq]
    simp only [ne_eq, not_true_eq_false, if_false]
    rfl

theorem ebind_ok {ε α β : Type} (a : α) (f : α → Except ε β) :
    Except.bind (Except.ok a) f = f a := rfl

theorem server_get_raw_ok {a : ServerMessage} (ha : ValidAckMessage a) :
    a.get_raw = .ok (a.header :: natToBytesBE 2 a.num) := by
  obtain ⟨hh, hnum, _⟩ := ha
  have h2 : a.num < 256 ^ 2 := by norm_num at hnum ⊢; omega
  have hhlt : a.header < 256 := by rcases hh with h | h <;> simp [h]
  simp only [ServerMessage.get_raw, pyToBytes_ok h2, Except.mapError, bind_ok_eq]
  refine pyBytes_ok ?_
  intro b hb
  rcases List.mem_cons.mp hb with hb | hb
  · subst hb
    exact hhlt
  · exact natToBytesBE_lt 2 a.num b hb

theorem server_encode_ok {a : ServerMessage} (ha : ValidAckMessage a) :
    a.encode = .ok ((a.header :: natToBytesBE 2 a.num) ++
      [(natToBytesBE 2 a.num).foldl Nat.xor a.header]) := by
  have hhlt : a.header < 256 := by rcases ha.1 with h | h <;> simp [h]
  have hcslt : (natToBytesBE 2 a.num).foldl Nat.xor a.header < 256 :=
    foldl_xor_lt (natToBytesBE_lt 2 a.num) hhlt
  rw [ServerMessage.encode, server_get_raw_ok ha, bind_ok_eq,
    show xor_checksum (a.header :: natToBytesBE 2 a.num) =
      .ok ((natToBytesBE 2 a.num).foldl Nat.xor a.header) from rfl, bind_ok_eq,
    pyBytes_ok (by intro b hb; simp at hb; rw [hb]; exact hcslt), bind_ok_eq]
  rfl

theorem server_decode_encode {a : ServerMessage} (ha : ValidAckMessage a) :
    ServerMessage.decode ((a.header :: natToBytesBE 2 a.num) ++
      [(natToBytesBE 2 a.num).foldl Nat.xor a.header]) = .ok a := by
  have hcs : ServerMessage.check_sum a =
      .ok ((natToBytesBE 2 a.num).foldl Nat.xor a.header) := by
    rw [ServerMessage.check_sum, server_get_raw_ok ha, bind_ok_eq]
    rfl
  obtain ⟨hh, hnum, herr⟩ := ha
  have h2 : a.num < 256 ^ 2 := by norm_num at hnum ⊢; omega
  obtain ⟨a0, a1, hA⟩ := exists_two (natToBytesBE_length 2 a.num)
  have hnumv : fromBytesBE [a0, a1] = a.num := by
    rw [← hA]
    exact fromBytes_toBytes h2
  have hmk : mkServerMessage a.num a.header = .ok a := by
    rw [mkServerMessage]
    rcases hh with h | h
    · rw [h]
      norm_num
      conv_rhs => rw [show a = ⟨a.header, a.num⟩ from rfl, h]
    · have h0 : a.num = 0 := herr h
      rw [h, h0]
      norm_num
      conv_rhs => rw [show a = ⟨a.header, a.num⟩ from rfl, h, h0]
  rw [ServerMessage.decode]
  simp only [pyLast, List.getLast?_concat, List.dropLast_concat]
  rw [hA] at hcs ⊢
  simp only [List.foldl_cons, List.foldl_nil] at hcs
  simp [pyIndex, hnumv, hmk, hcs, bind_ok_eq, bind_pure_eq]
  rfl

theorem readBytes_exact {k : Nat} {pre s : List Nat} (h : pre.length = k) :
    readBytes k (pre ++ s) = .ok (pre, s) := by
  rw [readBytes]
  have hlen : (pre ++ s).length = k + s.length := by simp [h]
  rw [if_neg (by omega), List.take_left' h, List.drop_left' h]

/-- C1: evaluating `broadcast_message` on 3 registered listeners where
listener #2's transport is already closed: only listener #1 receives the
message, #2 is removed, and the dict iterator then raises
`RuntimeError('dictionary changed size during iteration')`, which
escapes to the caller — listener #3 is never written to, contradicting
the claimed isolation. -/
theorem broadcast_mutation_during_iteration :
    broadcast_message [(1, ⟨true⟩), (2, ⟨false⟩), (3, ⟨true⟩)] =
      ⟨[1], [(1, ⟨true⟩), (3, ⟨true⟩)], some .runtimeError⟩ := by
  rfl

/-- C3: `StatusMessage(seq=1, id="abc", status=IDLE, fields=None)`
encodes to exactly the 14 bytes
`01 00 01 00 00 00 00 00 61 62 63 01 00 61`, and the two-field variant
`fields={"abc": 0x010203, "def": 0x030201}` encodes with trailing
checksum byte `0x64`. -/
theorem encode_golden_vectors :
    SourceMessage.encode ⟨1, 1, [0x61, 0x62, 0x63], 1, none⟩ =
      .ok [0x01, 0x00, 0x01, 0x00, 0x00, 0x00, 0x00, 0x00, 0x61, 0x62, 0x63, 0x01, 0x00, 0x61] ∧
    (SourceMessage.encode
        ⟨1, 1, [0x61, 0x62, 0x63], 1,
          some [([0x61, 0x62, 0x63], 0x010203), ([0x64, 0x65, 0x66], 0x030201)]⟩).map
      (fun l => l.getLastD 0) = .ok 0x64 := by
  exact ⟨rfl, rfl⟩

/-- C6: on the 4-byte AckMessage frame `11 00 01 00` — allowed header
`0x11`, sequence 1, trailing byte `0x00` different from the XOR fold
`0x10` of the preceding bytes — `ServerMessage.decode` raises
`IndexError` (the two-placeholder, one-argument
`'Invalid message {} from source {}'.format(num)` fails before the
intended `InvalidMessageException` is constructed), not
`InvalidMessage`. -/
theorem server_decode_checksum_mismatch_indexerror :
    ServerMessage.decode [0x11, 0x00, 0x01, 0x00] = .error .indexError ∧
    ServerMessage.decode [0x11, 0x00, 0x01, 0x00] ≠ .error .invalidMessage := by
  exact ⟨rfl, by decide⟩

/-- C7: flipping the low bit of the header byte (a single-bit flip of a
non-checksum byte) of the valid frame
`01 00 01 00 00 00 00 00 61 62 63 01 00 61` yields a frame with header
byte `0x00` that `SourceMessage.decode` accepts — `if not header`
silently substitutes the default header `0x01`, the rebuilt message
matches the original and the checksum comparison passes — instead of
failing with `InvalidMessage`. -/
theorem header_low_bit_flip_decodes_successfully :
    SourceMessage.decode [0x00, 0x00, 0x01, 0x00, 0x00, 0x00, 0x00, 0x00, 0x61, 0x62, 0x63,
        0x01, 0x00, 0x61] = .ok ⟨1, 1, [0x61, 0x62, 0x63], 1, none⟩ ∧
    SourceMessage.decode [0x00, 0x00, 0x01, 0x00, 0x00, 0x00, 0x00, 0x00, 0x61, 0x62, 0x63,
        0x01, 0x00, 0x61] ≠ .error .invalidMessage := by
  exact ⟨rfl, by decide⟩

/-- C4 counterexample: the 8-byte identifier slot for `"abc"` is not six
zero bytes followed by `"abc"` (that would be 9 bytes); `trim_bytes`
produces five zero bytes followed by `"abc"`. -/
theorem identifier_slot_not_six_zeros :
    ¬ (trim_bytes [0x61, 0x62, 0x63] 8 = List.replicate 6 0 ++ [0x61, 0x62, 0x63]) := by
  decide

set_option maxRecDepth 100000 in
/-- C5 counterexample: a `StatusMessage` with 256 fields (field count
does not fit one byte) fails with the builtin `ValueError` raised by
`bytes(message_data)` on the out-of-range count element, not with
`EncodeError`. -/
theorem field_count_overflow_not_encode_error :
    SourceMessage.encode overflowCountMessage = .error .valueError ∧
    SourceMessage.encode overflowCountMessage ≠ .error .encodeError := by
  have h : SourceMessage.encode overflowCountMessage = .error .valueError := by decide
  exact ⟨h, by rw [h]; decide⟩

/-- C9 counterexample: constructing a `Source` with status `0` does not
fail — `if not status` treats `0` as unset and silently substitutes the
default status IDLE = 1. -/
theorem source_with_zero_status_constructs :
    mkSource [0x61, 0x62, 0x63] 0 = .ok ⟨[0x61, 0x62, 0x63], 1, []⟩ := by
  rfl

/-- C9 (amended): a status outside `{1, 2, 3}` is rejected when
constructing a `StatusMessage`, when directly assigning the status
property, when updating a `Source` from a received message, and — for
nonzero values — when constructing a `Source`; but constructing a
`Source` with status `0` succeeds, silently substituting the default
status IDLE = 1. -/
theorem status_assignment_rejection :
    ∀ st : Nat, st ≠ 1 → st ≠ 2 → st ≠ 3 →
      (∀ num sid header data, mkSourceMessage num sid st header data = .error .invalidMessage) ∧
      (∀ s : Source, s.setStatus st = .error .sourceError) ∧
      (∀ (s : Source) (m : SourceMessage), m.status = st →
        s.get_message m = .error .sourceError) ∧
      (∀ sid, st ≠ 0 → mkSource sid st = .error .sourceError) ∧
      (∀ sid, sid.length ≤ 8 → st = 0 → mkSource sid st = .ok ⟨sid, 1, []⟩) := by
  intro st h1 h2 h3
  have hst : ¬ (st = 1 ∨ st = 2 ∨ st = 3) := by tauto
  have hset : ∀ s : Source, s.setStatus st = .error .sourceError := by
    intro s
    simp [Source.setStatus, h1, h2, h3]
  refine ⟨?_, hset, ?_, ?_, ?_⟩
  · intro num sid header data
    unfold mkSourceMessage
    by_cases h : header = 0 <;> simp [h, hst]
  · intro s m hm
    unfold Source.get_message
    rw [hm, hset s]
    rfl
  · intro sid h0
    unfold mkSource
    by_cases hl : 8 < sid.length
    · simp [hl]
    · simp [hl, h0, hset]
  · intro sid hl h0
    unfold mkSource
    have : ¬ (8 < sid.length) := by omega
    simp [this, h0, Source.setStatus]

/-- C9 witness: concrete instances of the amended claim at status 7 and
status 0. -/
theorem status_assignment_rejection_witness :
    mkSourceMessage 1 [] 7 1 none = .error .invalidMessage ∧
    Source.setStatus ⟨[], 1, []⟩ 7 = .error .sourceError ∧
    Source.get_message ⟨[], 1, []⟩ ⟨1, 1, [], 7, none⟩ = .error .sourceError ∧
    mkSource [] 7 = .error .sourceError ∧
    mkSource [0x64] 0 = .ok ⟨[0x64], 1, []⟩ := by
  have h7 := status_assignment_rejection 7 (by decide) (by decide) (by decide)
  have h0 := status_assignment_rejection 0 (by decide) (by decide) (by decide)
  exact ⟨h7.1 1 [] 1 none, h7.2.1 _, h7.2.2.1 _ _ rfl, h7.2.2.2.1 [] (by decide),
    h0.2.2.2.2 [0x64] (by decide) rfl⟩

/-- C2: for every valid `StatusMessage` and every valid `AckMessage`
(numeric fields within their wire widths, identifier and field names at
most 8 bytes of text, the field map in its canonical dict form),
decoding the encoding succeeds and reproduces all fields of the message:
header, sequence number, identifier, status, and the field map,
including the no-fields case. -/
theorem message_roundtrip (m : SourceMessage) (a : ServerMessage)
    (hm : ValidStatusMessage m) (ha : ValidAckMessage a) :
    (SourceMessage.encode m).bind SourceMessage.decode = .ok m ∧
    (ServerMessage.encode a).bind ServerMessage.decode = .ok a := by
  constructor
  · rw [encode_ok hm, ebind_ok]
    exact decode_encode hm
  · rw [server_encode_ok ha, ebind_ok]
    exact server_decode_encode ha

/-- C2 witness: the round trip at a concrete two-field StatusMessage and
a concrete error AckMessage. -/
theorem message_roundtrip_witness :
    ValidStatusMessage ⟨1, 5, [0x61], 2, some [([0x62], 7), ([0x63], 0xFFFF)]⟩ ∧
    ValidAckMessage ⟨0x12, 0⟩ ∧
    (SourceMessage.encode ⟨1, 5, [0x61], 2, some [([0x62], 7), ([0x63], 0xFFFF)]⟩).bind
      SourceMessage.decode = .ok ⟨1, 5, [0x61], 2, some [([0x62], 7), ([0x63], 0xFFFF)]⟩ ∧
    (ServerMessage.encode ⟨0x12, 0⟩).bind ServerMessage.decode = .ok ⟨0x12, 0⟩ := by
  refine ⟨by decide, by decide, ?_, ?_⟩
  · exact (message_roundtrip ⟨1, 5, [0x61], 2, some [([0x62], 7), ([0x63], 0xFFFF)]⟩
      ⟨0x12, 0⟩ (by decide) (by decide)).1
  · exact (message_roundtrip ⟨1, 5, [0x61], 2, some [([0x62], 7), ([0x63], 0xFFFF)]⟩
      ⟨0x12, 0⟩ (by decide) (by decide)).2

/-- C4 (amended): in StatusMessage encoding a text field shorter than its
fixed width is left-padded with zero bytes to exactly that width, text
longer than the width keeps its first width bytes, the identifier
`"abc"` occupies its 8-byte slot as five zero bytes followed by `"abc"`,
and decoding recovers exactly `"abc"`. -/
theorem trim_bytes_left_pad_policy :
    (∀ (s : List Nat) (n : Nat), s.length ≤ n →
      trim_bytes s n = List.replicate (n - s.length) 0 ++ s) ∧
    (∀ (s : List Nat) (n : Nat), n ≤ s.length → trim_bytes s n = s.take n) ∧
    trim_bytes [0x61, 0x62, 0x63] 8 = List.replicate 5 0 ++ [0x61, 0x62, 0x63] ∧
    (SourceMessage.decode [0x01, 0x00, 0x01, 0x00, 0x00, 0x00, 0x00, 0x00, 0x61, 0x62, 0x63,
        0x01, 0x00, 0x61]).map SourceMessage.source_id = .ok [0x61, 0x62, 0x63] :=
  ⟨fun _ _ h => trim_bytes_pad h, fun _ _ h => trim_bytes_take h, by decide, rfl⟩

/-- C4 witness: the padding equations at concrete inputs. -/
theorem trim_bytes_left_pad_policy_witness :
    ([5] : List Nat).length ≤ 3 ∧ trim_bytes [5] 3 = List.replicate (3 - ([5] : List Nat).length) 0 ++ [5] ∧
    2 ≤ ([7, 8, 9] : List Nat).length ∧ trim_bytes [7, 8, 9] 2 = ([7, 8, 9] : List Nat).take 2 :=
  ⟨by decide, trim_bytes_left_pad_policy.1 [5] 3 (by decide), by decide,
    trim_bytes_left_pad_policy.2.1 [7, 8, 9] 2 (by decide)⟩

/-- C5 (amended): encoding fails with EncodeError when the sequence
number exceeds 65535, when the status exceeds 255, or when a field value
needs more than 4 bytes; but a field count greater than 255 instead
fails with the builtin ValueError raised by `bytes(message_data)` on the
out-of-range count element. -/
theorem encode_overflow_errors :
    (∀ m : SourceMessage, 2 ^ 16 ≤ m.num → SourceMessage.encode m = .error .encodeError) ∧
    (∀ m : SourceMessage, m.num < 2 ^ 16 → 2 ^ 8 ≤ m.status →
      SourceMessage.encode m = .error .encodeError) ∧
    (∀ (m : SourceMessage) (d : List (List Nat × Nat)), m.num < 2 ^ 16 → m.status < 2 ^ 8 →
      m.data = some d → (∃ kv ∈ d, 2 ^ 32 ≤ kv.2) →
      SourceMessage.encode m = .error .encodeError) ∧
    (∀ (m : SourceMessage) (d : List (List Nat × Nat)), m.num < 2 ^ 16 → m.status < 2 ^ 8 →
      m.data = some d → (∀ kv ∈ d, kv.2 < 2 ^ 32) → 255 < d.length →
      SourceMessage.encode m = .error .valueError) := by
  refine ⟨?_, ?_, ?_, ?_⟩
  · intro m h
    have h2 : (256 : Nat) ^ 2 ≤ m.num := by norm_num at h ⊢; omega
    simp [SourceMessage.encode, SourceMessage.get_raw, pyToBytes_err h2, Except.mapError,
      bind_err_eq]
  · intro m hnum h
    have h2 : m.num < 256 ^ 2 := by norm_num at hnum ⊢; omega
    have h1 : (256 : Nat) ^ 1 ≤ m.status := by norm_num at h ⊢; omega
    simp [SourceMessage.encode, SourceMessage.get_raw, pyToBytes_ok h2, pyToBytes_err h1,
      Except.mapError, bind_ok_eq, bind_err_eq]
  · intro m d hnum hstatus hdm hex
    have h2 : m.num < 256 ^ 2 := by norm_num at hnum ⊢; omega
    have h1 : m.status < 256 ^ 1 := by norm_num at hstatus ⊢; omega
    have hdne : d.isEmpty = false := by
      obtain ⟨kv, hm, _⟩ := hex
      cases d with
      | nil => cases hm
      | cons x xs => rfl
    simp [SourceMessage.encode, SourceMessage.get_raw, pyToBytes_ok h2, pyToBytes_ok h1,
      Except.mapError, bind_ok_eq, bind_err_eq, hdm, hdne, encode_data_err hex]
  · intro m d hnum hstatus hdm hvals hlen
    have h2 : m.num < 256 ^ 2 := by norm_num at hnum ⊢; omega
    have h1 : m.status < 256 ^ 1 := by norm_num at hstatus ⊢; omega
    have hdne : d.isEmpty = false := by
      cases d with
      | nil => simp at hlen
      | cons x xs => rfl
    have hmem : d.length ∈ m.header :: (natToBytesBE 2 m.num ++ (trim_bytes m.source_id 8 ++
        (natToBytesBE 1 m.status ++ d.length :: encChunks (sortedItems d)))) := by
      simp
    have hpb : pyBytes (m.header :: (natToBytesBE 2 m.num ++ (trim_bytes m.source_id 8 ++
        (natToBytesBE 1 m.status ++ d.length :: encChunks (sortedItems d))))) =
        .error .valueError := pyBytes_err hmem (by omega)
    simp [SourceMessage.encode, SourceMessage.get_raw, pyToBytes_ok h2, pyToBytes_ok h1,
      Except.mapError, bind_ok_eq, bind_err_eq, hdm, hdne, encode_data_ok_any hvals, hpb]

set_option maxRecDepth 100000 in
/-- C5 witness: each overflow kind at a concrete message. -/
theorem encode_overflow_errors_witness :
    SourceMessage.encode ⟨1, 0x10000, [], 1, none⟩ = .error .encodeError ∧
    SourceMessage.encode ⟨1, 1, [], 0x100, none⟩ = .error .encodeError ∧
    SourceMessage.encode ⟨1, 1, [], 1, some [([0x61], 0x100000000)]⟩ = .error .encodeError ∧
    SourceMessage.encode overflowCountMessage = .error .valueError := by
  refine ⟨encode_overflow_errors.1 _ (by decide),
    encode_overflow_errors.2.1 _ (by decide) (by decide),
    encode_overflow_errors.2.2.1 _ [([0x61], 0x100000000)] (by decide) (by decide) rfl
      ⟨([0x61], 0x100000000), by decide, by decide⟩,
    encode_overflow_errors.2.2.2 _ ((List.range 256).map (fun i => ([i / 16 + 1, i % 16 + 1], i)))
      (by decide) (by decide) rfl (by decide) (by decide)⟩

/-- C10: `SourceMessage.decode` does not validate the total frame length
when the declared field-count byte is 0: every byte between the
field-count byte and the final byte is ignored when reconstructing the
message, so inserting extra bytes there (here with zero combined XOR
contribution, e.g. two equal bytes) still passes the checksum comparison
— which is recomputed from the re-encoded message, not the received
bytes — and decodes successfully to the same message, silently
discarding the extra bytes. -/
theorem zero_count_frame_ignores_inserted_bytes
    (h n1 n2 i0 i1 i2 i3 i4 i5 i6 i7 st c : Nat) (junk : List Nat) (m : SourceMessage)
    (hclean : SourceMessage.decode
      [h, n1, n2, i0, i1, i2, i3, i4, i5, i6, i7, st, 0, c] = .ok m)
    (_hxor : junk.foldl Nat.xor 0 = 0) (_hne : junk ≠ []) :
    SourceMessage.decode ([h, n1, n2, i0, i1, i2, i3, i4, i5, i6, i7, st, 0] ++ junk ++ [c]) =
      .ok m := by
  have key : SourceMessage.decode
      ([h, n1, n2, i0, i1, i2, i3, i4, i5, i6, i7, st, 0] ++ junk ++ [c]) =
      SourceMessage.decode [h, n1, n2, i0, i1, i2, i3, i4, i5, i6, i7, st, 0, c] := by
    have hlast : ∀ (x y : Nat) (l : List Nat), (x :: (l ++ [y])).getLast? = some y := by
      intro x y l
      rw [show x :: (l ++ [y]) = (x :: l) ++ [y] from by simp, List.getLast?_concat]
    rw [SourceMessage.decode, SourceMessage.decode]
    simp [pyIndex, pyLast, List.getLast?_concat, List.dropLast_concat, bind_ok_eq,
      bind_pure_eq, hlast]
  rw [key]
  exact hclean

/-- C10 witness: the no-fields golden frame with two equal junk bytes
`37 37` inserted between count byte and checksum still decodes to the
same message. -/
theorem zero_count_frame_ignores_inserted_bytes_witness :
    SourceMessage.decode [0x01, 0x00, 0x01, 0x00, 0x00, 0x00, 0x00, 0x00, 0x61, 0x62, 0x63,
      0x01, 0x00, 0x61] = .ok ⟨1, 1, [0x61, 0x62, 0x63], 1, none⟩ ∧
    ([0x37, 0x37] : List Nat).foldl Nat.xor 0 = 0 ∧
    SourceMessage.decode ([0x01, 0x00, 0x01, 0x00, 0x00, 0x00, 0x00, 0x00, 0x61, 0x62, 0x63,
      0x01, 0x00] ++ [0x37, 0x37] ++ [0x61]) = .ok ⟨1, 1, [0x61, 0x62, 0x63], 1, none⟩ := by
  have h1 : SourceMessage.decode [0x01, 0x00, 0x01, 0x00, 0x00, 0x00, 0x00, 0x00, 0x61, 0x62,
      0x63, 0x01, 0x00, 0x61] = .ok ⟨1, 1, [0x61, 0x62, 0x63], 1, none⟩ := rfl
  exact ⟨h1, by decide,
    zero_count_frame_ignores_inserted_bytes 1 0 1 0 0 0 0 0 0x61 0x62 0x63 1 0x61 [0x37, 0x37]
      _ h1 (by decide) (by decide)⟩

/-- C8: `decode_stream` has identical semantics to `decode` on a
well-formed frame delivered over a stream whose header byte has already
been consumed: it reads the fixed prefix, exactly field-count × 12
further bytes plus the trailing checksum byte, yields the same message
`decode` yields on the full frame bytes, and leaves any following stream
bytes unconsumed — never a partial message.  Stated for both
StatusMessage and AckMessage frames. -/
theorem decode_stream_refines_decode :
    (∀ (h n1 n2 i0 i1 i2 i3 i4 i5 i6 i7 st cnt c : Nat) (chunks extra : List Nat)
      (m : SourceMessage), h < 256 → chunks.length = cnt * 12 →
      SourceMessage.decode (h :: n1 :: n2 :: i0 :: i1 :: i2 :: i3 :: i4 :: i5 :: i6 :: i7 ::
        st :: cnt :: (chunks ++ [c])) = .ok m →
      SourceMessage.decode_stream h (n1 :: n2 :: i0 :: i1 :: i2 :: i3 :: i4 :: i5 :: i6 ::
        i7 :: st :: cnt :: (chunks ++ c :: extra)) = .ok (m, extra)) ∧
    (∀ (h x y z : Nat) (extra : List Nat) (ms : ServerMessage), h < 256 →
      ServerMessage.decode [h, x, y, z] = .ok ms →
      ServerMessage.decode_stream h (x :: y :: z :: extra) = .ok (ms, extra)) := by
  constructor
  · intro h n1 n2 i0 i1 i2 i3 i4 i5 i6 i7 st cnt c chunks extra m hh hlen hdec
    have r2 : readBytes 2 (n1 :: n2 :: i0 :: i1 :: i2 :: i3 :: i4 :: i5 :: i6 :: i7 :: st ::
        cnt :: (chunks ++ c :: extra)) = .ok ([n1, n2], i0 :: i1 :: i2 :: i3 :: i4 :: i5 ::
        i6 :: i7 :: st :: cnt :: (chunks ++ c :: extra)) :=
      @readBytes_exact 2 [n1, n2]
        (i0 :: i1 :: i2 :: i3 :: i4 :: i5 :: i6 :: i7 :: st :: cnt :: (chunks ++ c :: extra))
        rfl
    have r8 : readBytes 8 (i0 :: i1 :: i2 :: i3 :: i4 :: i5 :: i6 :: i7 :: st :: cnt ::
        (chunks ++ c :: extra)) = .ok ([i0, i1, i2, i3, i4, i5, i6, i7], st :: cnt ::
        (chunks ++ c :: extra)) :=
      @readBytes_exact 8 [i0, i1, i2, i3, i4, i5, i6, i7]
        (st :: cnt :: (chunks ++ c :: extra)) rfl
    have rst : readBytes 1 (st :: cnt :: (chunks ++ c :: extra)) =
        .ok ([st], cnt :: (chunks ++ c :: extra)) :=
      @readBytes_exact 1 [st] (cnt :: (chunks ++ c :: extra)) rfl
    have rcnt : readBytes 1 (cnt :: (chunks ++ c :: extra)) =
        .ok ([cnt], chunks ++ c :: extra) :=
      @readBytes_exact 1 [cnt] (chunks ++ c :: extra) rfl
    have hnf : fromBytesBE [cnt] = cnt := by simp [fromBytesBE]
    rw [SourceMessage.decode_stream, pyToBytes_ok (show h < 256 ^ 1 by simpa using hh),
      natToBytesBE_one hh]
    simp only [r2, r8, rst, rcnt, hnf, bind_ok_eq, bind_pure_eq]
    cases cnt with
    | zero =>
      have hch : chunks = [] := List.length_eq_zero.mp (by omega)
      subst hch
      have rc : readBytes 1 (c :: extra) = .ok ([c], extra) :=
        @readBytes_exact 1 [c] extra rfl
      simp only [gt_iff_lt, Nat.lt_irrefl, if_false, bind_pure_eq, List.nil_append, rc,
        bind_ok_eq]
      have hfr : [h] ++ [n1, n2] ++ [i0, i1, i2, i3, i4, i5, i6, i7] ++ [st] ++ [0] ++ [] ++
          [c] = h :: n1 :: n2 :: i0 :: i1 :: i2 :: i3 :: i4 :: i5 :: i6 :: i7 :: st :: 0 ::
          ([] ++ [c]) := by simp
      rw [hfr, hdec, bind_ok_eq]
      rfl
    | succ k =>
      have rch : readBytes ((k + 1) * 12) (chunks ++ c :: extra) =
          .ok (chunks, c :: extra) := by
        rw [show chunks ++ c :: extra = chunks ++ ([c] ++ extra) from by simp]
        exact readBytes_exact hlen
      have rc : readBytes 1 (c :: extra) = .ok ([c], extra) :=
        @readBytes_exact 1 [c] extra rfl
      simp only [gt_iff_lt, Nat.succ_pos, if_true, Nat.succ_eq_add_one, rch, bind_ok_eq, rc]
      have hfr : [h] ++ [n1, n2] ++ [i0, i1, i2, i3, i4, i5, i6, i7] ++ [st] ++ [k + 1] ++
          chunks ++ [c] = h :: n1 :: n2 :: i0 :: i1 :: i2 :: i3 :: i4 :: i5 :: i6 :: i7 ::
          st :: (k + 1) :: (chunks ++ [c]) := by simp
      rw [hfr, hdec, bind_ok_eq]
      rfl
  · intro h x y z extra ms hh hdec
    have r2 : readBytes 2 (x :: y :: z :: extra) = .ok ([x, y], z :: extra) :=
      @readBytes_exact 2 [x, y] (z :: extra) rfl
    have rc : readBytes 1 (z :: extra) = .ok ([z], extra) := @readBytes_exact 1 [z] extra rfl
    rw [ServerMessage.decode_stream, pyToBytes_ok (show h < 256 ^ 1 by simpa using hh),
      natToBytesBE_one hh]
    simp only [r2, rc, bind_ok_eq]
    have hfr : [h] ++ [x, y] ++ [z] = [h, x, y, z] := by simp
    rw [hfr, hdec, bind_ok_eq]
    rfl

/-- C8 witness: the golden no-fields frame and a success AckMessage
frame, each followed by one extra stream byte that is left unconsumed. -/
theorem decode_stream_refines_decode_witness :
    SourceMessage.decode [0x01, 0x00, 0x01, 0x00, 0x00, 0x00, 0x00, 0x00, 0x61, 0x62, 0x63,
      0x01, 0x00, 0x61] = .ok ⟨1, 1, [0x61, 0x62, 0x63], 1, none⟩ ∧
    SourceMessage.decode_stream 0x01 [0x00, 0x01, 0x00, 0x00, 0x00, 0x00, 0x00, 0x61, 0x62,
      0x63, 0x01, 0x00, 0x61, 0xAB] = .ok (⟨1, 1, [0x61, 0x62, 0x63], 1, none⟩, [0xAB]) ∧
    ServerMessage.decode [0x11, 0x00, 0x01, 0x10] = .ok ⟨0x11, 1⟩ ∧
    ServerMessage.decode_stream 0x11 [0x00, 0x01, 0x10, 0x99] = .ok (⟨0x11, 1⟩, [0x99]) := by
  have h1 : SourceMessage.decode [0x01, 0x00, 0x01, 0x00, 0x00, 0x00, 0x00, 0x00, 0x61, 0x62,
      0x63, 0x01, 0x00, 0x61] = .ok ⟨1, 1, [0x61, 0x62, 0x63], 1, none⟩ := rfl
  have h3 : ServerMessage.decode [0x11, 0x00, 0x01, 0x10] = .ok ⟨0x11, 1⟩ := rfl
  exact ⟨h1,
    decode_stream_refines_decode.1 0x01 0x00 0x01 0x00 0x00 0x00 0x00 0x00 0x61 0x62 0x63
      0x01 0x00 0x61 [] [0xAB] ⟨1, 1, [0x61, 0x62, 0x63], 1, none⟩ (by decide) (by decide) h1,
    h3,
    decode_stream_refines_decode.2 0x11 0x00 0x01 0x10 [0x99] ⟨0x11, 1⟩ (by decide) h3⟩
